import Mathlib

/-!
Verification development for the forex CSV bulk loader (loadcsvs.py).

The script walks a data directory, selects zip archives by a filename
heuristic, derives a table name from the archive filename, parses the
embedded CSV rows (pair, timestamp, bid, ask) in chunks of 100000 rows,
converts the timestamp with a two-format strptime fallback, and performs
committed INSERT IGNORE batches into one MySQL table per archive.

Strings are embedded as `List Char`.  Fallible operations return
`Option`.  The MySQL-side behaviour the script relies on (INSERT IGNORE
skipping primary-key collisions, DATETIME(6) storing microseconds, the
connector rendering a datetime parameter with its full microsecond
field) is embedded as executable definitions and noted where it occurs.
-/

/-- Value of a decimal digit character, `none` on a non-digit.  Mirrors how
CPython strptime converts a matched digit group with `int`. -/
def digit? (c : Char) : Option Nat :=
  if c.isDigit then some (c.toNat - 48) else none

/-- Numeric value of a list of decimal digit characters (most significant
first). -/
def digitsVal (ds : List Char) : Nat :=
  ds.foldl (fun a c => 10 * a + (c.toNat - 48)) 0

/-- Two-digit zero-padded decimal rendering, as in strftime `%m`, `%d`,
`%H`, `%M`, `%S`. -/
def pad2 (n : Nat) : List Char :=
  [Nat.digitChar (n / 10 % 10), Nat.digitChar (n % 10)]

/-- Four-digit zero-padded decimal rendering, as in strftime `%Y`. -/
def pad4 (n : Nat) : List Char :=
  [Nat.digitChar (n / 1000 % 10), Nat.digitChar (n / 100 % 10),
   Nat.digitChar (n / 10 % 10), Nat.digitChar (n % 10)]

/-- Six-digit zero-padded decimal rendering, as in strftime `%f`. -/
def pad6 (n : Nat) : List Char :=
  [Nat.digitChar (n / 100000 % 10), Nat.digitChar (n / 10000 % 10),
   Nat.digitChar (n / 1000 % 10), Nat.digitChar (n / 100 % 10),
   Nat.digitChar (n / 10 % 10), Nat.digitChar (n % 10)]

/-- Python `str.split(sep)` for a single-character separator: splitting the
empty string gives `[[]]`, adjacent separators give empty fields. -/
def splitOnChar (c : Char) : List Char → List (List Char)
  | [] => [[]]
  | x :: xs =>
    if x = c then [] :: splitOnChar c xs
    else
      match splitOnChar c xs with
      | [] => [[x]]
      | h :: t => (x :: h) :: t

/-- The dash-separated tokens of the archive filename that
`get_table_name` indexes into: `os.path.basename(filename)` (the part
after the last slash), then `.split('.')[0]` (the part before the first
dot), then `.split('-')`. -/
def fname_tokens (filename : List Char) : List (List Char) :=
  splitOnChar '-' ((splitOnChar '.' ((splitOnChar '/' filename).getLastD [])).headD [])

/-- Embeds `get_table_name` of loadcsvs.py: take filename tokens
`parts`, return `parts[0] + "_" + parts[1] + "_" + parts[2]`.  The Python
code raises an (untyped) IndexError when fewer than three tokens exist;
that failure is `none` here.  Tokens past the third are ignored by the
source code. -/
def get_table_name (filename : List Char) : Option (List Char) :=
  match fname_tokens filename with
  | p0 :: p1 :: p2 :: _ => some (p0 ++ '_' :: p1 ++ '_' :: p2)
  | _ => none

/-- A parsed datetime value: the result of `datetime.strptime` in the
script, with microsecond resolution. -/
structure DT where
  year : Nat
  month : Nat
  day : Nat
  hour : Nat
  minute : Nat
  second : Nat
  usec : Nat
deriving DecidableEq

/-- strptime `%Y`: exactly four digit characters. -/
def pYear (s : List Char) : Option (Nat × List Char) :=
  match s with
  | c1 :: c2 :: c3 :: c4 :: r =>
    match digit? c1, digit? c2, digit? c3, digit? c4 with
    | some a, some b, some c, some d => some (1000 * a + 100 * b + 10 * c + d, r)
    | _, _, _, _ => none
  | _ => none

/-- strptime `%m`, regex `1[0-2]|0[1-9]|[1-9]`: candidate (value, rest)
pairs in regex preference order; the two-digit alternatives come before
the one-digit one. -/
def pMonthAlts (s : List Char) : List (Nat × List Char) :=
  (match s with
   | c1 :: c2 :: r =>
     match digit? c1, digit? c2 with
     | some a, some b =>
       (if a = 1 ∧ b ≤ 2 then [(10 + b, r)] else []) ++
       (if a = 0 ∧ 1 ≤ b then [(b, r)] else [])
     | _, _ => []
   | _ => []) ++
  (match s with
   | c1 :: r =>
     match digit? c1 with
     | some a => if 1 ≤ a then [(a, r)] else []
     | none => []
   | [] => [])

/-- strptime `%d`, regex `3[01]|[12]\d|0[1-9]|[1-9]`. -/
def pDayAlts (s : List Char) : List (Nat × List Char) :=
  (match s with
   | c1 :: c2 :: r =>
     match digit? c1, digit? c2 with
     | some a, some b =>
       (if a = 3 ∧ b ≤ 1 then [(30 + b, r)] else []) ++
       (if (a = 1 ∨ a = 2) then [(10 * a + b, r)] else []) ++
       (if a = 0 ∧ 1 ≤ b then [(b, r)] else [])
     | _, _ => []
   | _ => []) ++
  (match s with
   | c1 :: r =>
     match digit? c1 with
     | some a => if 1 ≤ a then [(a, r)] else []
     | none => []
   | [] => [])

/-- strptime `%H`, regex `2[0-3]|[0-1]\d|\d`. -/
def pHourAlts (s : List Char) : List (Nat × List Char) :=
  (match s with
   | c1 :: c2 :: r =>
     match digit? c1, digit? c2 with
     | some a, some b =>
       (if a = 2 ∧ b ≤ 3 then [(20 + b, r)] else []) ++
       (if a ≤ 1 then [(10 * a + b, r)] else [])
     | _, _ => []
   | _ => []) ++
  (match s with
   | c1 :: r =>
     match digit? c1 with
     | some a => [(a, r)]
     | none => []
   | [] => [])

/-- strptime `%M`, regex `[0-5]\d|\d`. -/
def pMinAlts (s : List Char) : List (Nat × List Char) :=
  (match s with
   | c1 :: c2 :: r =>
     match digit? c1, digit? c2 with
     | some a, some b => if a ≤ 5 then [(10 * a + b, r)] else []
     | _, _ => []
   | _ => []) ++
  (match s with
   | c1 :: r =>
     match digit? c1 with
     | some a => [(a, r)]
     | none => []
   | [] => [])

/-- strptime `%S`, regex `6[0-1]|[0-5]\d|\d` (leap seconds are admitted
by the regex and rejected later by the datetime constructor). -/
def pSecAlts (s : List Char) : List (Nat × List Char) :=
  (match s with
   | c1 :: c2 :: r =>
     match digit? c1, digit? c2 with
     | some a, some b =>
       (if a = 6 ∧ b ≤ 1 then [(60 + b, r)] else []) ++
       (if a ≤ 5 then [(10 * a + b, r)] else [])
     | _, _ => []
   | _ => []) ++
  (match s with
   | c1 :: r =>
     match digit? c1 with
     | some a => [(a, r)]
     | none => []
   | [] => [])

/-- Microsecond value of a fractional-digit group: CPython right-pads the
matched digits with zeros to six places before `int`. -/
def fracUsec (ds : List Char) : Nat :=
  digitsVal ds * 10 ^ (6 - ds.length)

/-- strptime `.%f`, regex `\.(?P<f>[0-9]{1,6})`: a literal dot, then
greedily up to six digits (at least one).  Returns the microsecond value
and the unconsumed rest; a seventh digit is left unconsumed, which the
caller then rejects as unconverted data. -/
def fracTail (s : List Char) : Option (Nat × List Char) :=
  match s with
  | '.' :: r =>
    let ds := (r.takeWhile Char.isDigit).take 6
    if ds.isEmpty then none else some (fracUsec ds, r.drop ds.length)
  | _ => none

/-- The time-of-day part `%H:%M:%S` (and `.%f` when `withFrac`) of the
strptime patterns, with regex alternation backtracking: each candidate of
a field is tried in preference order against the whole continuation. -/
def pTime (withFrac : Bool) (r : List Char) :
    Option (Nat × Nat × Nat × Nat × List Char) :=
  (pHourAlts r).findSome? fun hm =>
    match hm.2 with
    | ':' :: r5 =>
      (pMinAlts r5).findSome? fun mm =>
        match mm.2 with
        | ':' :: r7 =>
          (pSecAlts r7).findSome? fun sm =>
            if withFrac then
              match fracTail sm.2 with
              | some (us, r9) => some (hm.1, mm.1, sm.1, us, r9)
              | none => none
            else
              some (hm.1, mm.1, sm.1, 0, sm.2)
        | _ => none
    | _ => none

/-- The full regex match for the strptime format `%Y%m%d %H:%M:%S` (with
`.%f` when `withFrac`): returns the matched fields and the unconsumed
rest of the input, or `none` when the pattern does not match a prefix. -/
def matchCore (withFrac : Bool) (s : List Char) : Option (DT × List Char) :=
  match pYear s with
  | none => none
  | some (y, r0) =>
    (pMonthAlts r0).findSome? fun mm =>
      (pDayAlts mm.2).findSome? fun dm =>
        match dm.2 with
        | ' ' :: r3 =>
          (pTime withFrac r3).map fun tm =>
            (⟨y, mm.1, dm.1, tm.1, tm.2.1, tm.2.2.1, tm.2.2.2.1⟩, tm.2.2.2.2)
        | _ => none

/-- Gregorian leap year rule, as used by `datetime`. -/
def isLeapYear (y : Nat) : Bool :=
  y % 4 = 0 && (y % 100 ≠ 0 || y % 400 = 0)

/-- Days in a month, as enforced by the `datetime` constructor. -/
def daysInMonth (y m : Nat) : Nat :=
  if m = 2 then (if isLeapYear y then 29 else 28)
  else if m = 4 ∨ m = 6 ∨ m = 9 ∨ m = 11 then 30
  else 31

/-- The validation performed by the `datetime` constructor after a
successful regex match (strptime builds a `datetime` from the matched
groups; out-of-range fields raise ValueError). -/
def datetimeValid (t : DT) : Bool :=
  decide (1 ≤ t.year ∧ t.year ≤ 9999 ∧ 1 ≤ t.month ∧ t.month ≤ 12 ∧
    1 ≤ t.day ∧ t.day ≤ daysInMonth t.year t.month ∧
    t.hour ≤ 23 ∧ t.minute ≤ 59 ∧ t.second ≤ 59 ∧ t.usec ≤ 999999)

/-- One `datetime.strptime` call: the regex must match, every input
character must be consumed (otherwise CPython raises ValueError for
unconverted data), and the fields must build a valid datetime. -/
def strptimeFull (withFrac : Bool) (s : List Char) : Option DT :=
  match matchCore withFrac s with
  | some (t, rest) => if rest = [] ∧ datetimeValid t = true then some t else none
  | none => none

/-- Embeds `parse_timestamp` of loadcsvs.py: try the format with
fractional seconds first and fall back to the whole-second format when the
first raises ValueError.  Failure of both (an uncatchable ValueError in
the script) is `none`. -/
def parse_timestamp (s : List Char) : Option DT :=
  match strptimeFull true s with
  | some t => some t
  | none => strptimeFull false s

/-- `dt.strftime('%Y-%m-%d %H:%M:%S.%f')`: the dashed date, time of day,
and exactly six fractional digits. -/
def strftime_full (t : DT) : List Char :=
  pad4 t.year ++ '-' :: pad2 t.month ++ '-' :: pad2 t.day ++
  ' ' :: pad2 t.hour ++ ':' :: pad2 t.minute ++ ':' :: pad2 t.second ++
  '.' :: pad6 t.usec

/-- Embeds `format_datetime_with_ms` of loadcsvs.py:
`dt.strftime('%Y-%m-%d %H:%M:%S.%f')[:-3]`, dropping the last three of
the six fractional digits.  Note: this helper is defined by the script
but never called on the insert path. -/
def format_datetime_with_ms (t : DT) : List Char :=
  (strftime_full t).dropLast.dropLast.dropLast

/-- The literal the MySQL connector renders for a `datetime` parameter of
`executemany` (embedded library behaviour): the full-microsecond strftime
form, or the fraction-free form when the microsecond field is zero.  The
target column is DATETIME(6), so this literal is stored exactly. -/
def mysql_literal (t : DT) : List Char :=
  if t.usec = 0 then
    pad4 t.year ++ '-' :: pad2 t.month ++ '-' :: pad2 t.day ++
    ' ' :: pad2 t.hour ++ ':' :: pad2 t.minute ++ ':' :: pad2 t.second
  else strftime_full t

/-- The canonical text of a timestamp in the input format
`YYYYMMDD HH:MM:SS` (without fractional digits). -/
def renderTS (y mo d h mi s : Nat) : List Char :=
  pad4 y ++ pad2 mo ++ pad2 d ++ ' ' :: pad2 h ++ ':' :: pad2 mi ++ ':' :: pad2 s

/-- Raw bid/ask cell text as read from the CSV. -/
abbrev Val := List Char

/-- A stored row: primary-key timestamp plus the bid and ask payload,
carried as the raw cell text.  The server-side DECIMAL conversion of
this text — which under INSERT IGNORE never fails, coercing invalid
values with a warning — is not modelled: no claim depends on the stored
numeric representation, only on commit/abort behaviour and row
identity. -/
abbrev Row := DT × Val × Val

/-- A target table: rows in insertion order, keyed by timestamp. -/
abbrev Table := List Row

/-- Whether the table already holds a row with the given primary-key
timestamp. -/
def hasKey (t : Table) (ts : DT) : Bool :=
  t.any fun r => r.1 == ts

/-- One row of an INSERT IGNORE: on a primary-key collision the row is
silently skipped (no error, no overwrite); otherwise it is appended. -/
def insert_ignore (t : Table) (r : Row) : Table :=
  if hasKey t r.1 then t else t ++ [r]

/-- The batched `INSERT IGNORE INTO ... VALUES ...` of `process_zip_file`:
rows are attempted in order, each under the ignore-on-collision policy. -/
def insert_batch (t : Table) (rows : List Row) : Table :=
  rows.foldl insert_ignore t

/-- The row stored under a primary-key timestamp, if any. -/
def lookupRow (t : Table) (ts : DT) : Option Row :=
  t.find? fun r => r.1 == ts

/-- Number of rows carrying the given primary-key timestamp. -/
def countKey (t : Table) (ts : DT) : Nat :=
  t.countP fun r => r.1 == ts

/-- A raw CSV row before conversion: pair label, timestamp text, bid
text, ask text (the four headerless columns). -/
abbrev RawRow := Val × Val × Val × Val

/-- Conversion of one raw row on the insert path of `process_zip_file`:
the pair column is dropped and the timestamp is converted client-side,
where an unparseable text raises out of
`chunk['timestamp'].apply(parse_timestamp)`.  The bid/ask cells are
passed through unvalidated: they only meet the DECIMAL(10, 5) columns
server-side, where the INSERT IGNORE statement downgrades any
conversion error to a warning and stores the coerced value, so a
non-numeric cell never fails a row or a batch. -/
def parseRow (r : RawRow) : Option Row :=
  match parse_timestamp r.2.1 with
  | some dt => some (dt, r.2.2.1, r.2.2.2)
  | none => none

/-- Conversion of a whole chunk: the timestamp column conversion runs
over every row of the chunk before its insert, so one unparseable
timestamp fails the chunk before anything of it reaches the store. -/
def parseBatch : List RawRow → Option (List Row)
  | [] => some []
  | r :: rs =>
    match parseRow r, parseBatch rs with
    | some x, some xs => some (x :: xs)
    | _, _ => none

/-- Effect of one chunk on the committed table: a convertible chunk is
inserted as one batch, a failing chunk contributes nothing. -/
def applyBatch (t : Table) (b : List RawRow) : Table :=
  match parseBatch b with
  | some rows => insert_batch t rows
  | none => t

/-- The chunk loop of `process_zip_file`: each chunk is converted,
inserted and committed in turn; the first failing chunk aborts the loop
with everything committed so far retained (`false` = the archive import
raised). -/
def runBatches (t : Table) : List (List RawRow) → Table × Bool
  | [] => (t, true)
  | b :: bs =>
    match parseBatch b with
    | some rows => runBatches (insert_batch t rows) bs
    | none => (t, false)

/-- The pandas `chunksize` constant of `process_zip_file`. -/
def chunk_size : Nat := 100000

/-- Structural worker for `chunkList`: the fuel argument (instantiated
with the list length, which dropping never increases) only bounds the
recursion depth and never runs out. -/
def chunkFuel {α : Type} (n : Nat) : Nat → List α → List (List α)
  | _, [] => []
  | 0, _ :: _ => []
  | fuel + 1, x :: xs => (x :: xs.take (n - 1)) :: chunkFuel n fuel (xs.drop (n - 1))

/-- `pd.read_csv(..., chunksize=n)`: the rows in order, grouped into
chunks of `n` (the final chunk may be shorter). -/
def chunkList {α : Type} (n : Nat) (l : List α) : List (List α) :=
  chunkFuel n l.length l

/-- A table identifier in the store. -/
abbrev TableId := List Char

/-- The relational store: tables in creation order with their rows. -/
abbrev Store := List (TableId × Table)

/-- Whether a table already exists in the store. -/
def hasTable (st : Store) (tid : TableId) : Bool :=
  st.any fun p => p.1 == tid

/-- `CREATE TABLE IF NOT EXISTS`: a fresh table is created empty (with
the schema and indexes of the DDL); an existing one is untouched. -/
def ensure_table (st : Store) (tid : TableId) : Store :=
  if hasTable st tid then st else st ++ [(tid, [])]

/-- The rows of a table in the store (empty when absent). -/
def getTable (st : Store) (tid : TableId) : Table :=
  ((st.find? fun p => p.1 == tid).map Prod.snd).getD []

/-- Replace the rows of a table in the store. -/
def setTable (st : Store) (tid : TableId) (t : Table) : Store :=
  st.map fun p => if p.1 == tid then (p.1, t) else p

/-- The name of an entry inside a zip archive. -/
abbrev EntryName := List Char

/-- One archive entry: its name and its raw CSV rows. -/
abbrev Entry := EntryName × List RawRow

/-- The entry filter of `process_zip_file`: only entries whose name ends
in `.csv` are read. -/
def csvName (n : EntryName) : Bool :=
  List.isSuffixOf (String.data ".csv") n

/-- The entry loop of `process_zip_file`: each `.csv` entry is read in
chunks into the archive table; other entries are skipped.  The first
failing chunk aborts the archive with prior commits retained. -/
def entriesLoop (st : Store) (tid : TableId) : List Entry → Store × Bool
  | [] => (st, true)
  | e :: es =>
    if csvName e.1 then
      let res := runBatches (getTable st tid) (chunkList chunk_size e.2)
      let st2 := setTable st tid res.1
      if res.2 then entriesLoop st2 tid es else (st2, false)
    else entriesLoop st tid es

/-- Embeds `process_zip_file`: resolve the table name from the archive
filename (an unresolvable name raises, aborting with the store
unchanged), ensure the table exists, then run the entry loop.  On success
the table name is returned to the orchestrator. -/
def process_zip_file (st : Store) (fname : List Char) (entries : List Entry) :
    Store × Option TableId :=
  match get_table_name fname with
  | none => (st, none)
  | some tid =>
    let st1 := ensure_table st tid
    let res := entriesLoop st1 tid entries
    (res.1, if res.2 then some tid else none)

/-- Substring test, Python `needle in hay`. -/
def containsSub (hay needle : List Char) : Bool :=
  match hay with
  | [] => needle.isEmpty
  | _ :: t => List.isPrefixOf needle hay || containsSub t needle

/-- The fixed allow-list of currency codes of `process_data_directory`. -/
def currency_codes : List (List Char) :=
  [String.data "USD", String.data "EUR", String.data "GBP", String.data "JPY",
   String.data "AUD", String.data "CAD", String.data "CHF", String.data "NZD"]

/-- The admission filter of `process_data_directory`: the filename ends
in `.zip` and contains at least one allow-listed currency code as a
substring. -/
def admitted (file : List Char) : Bool :=
  List.isSuffixOf (String.data ".zip") file &&
  currency_codes.any fun c => containsSub file c

/-- Embeds the walk loop of `process_data_directory` over the discovered
files (each with the entries of its archive): admitted files run the
per-archive pipeline and their table names are collected; a failing
archive aborts the whole run (`false`), keeping the store as committed
and the names collected before it. -/
def process_data_directory (st : Store) :
    List (List Char × List Entry) → Store × List TableId × Bool
  | [] => (st, [], true)
  | f :: fs =>
    if admitted f.1 then
      let res := process_zip_file st f.1 f.2
      match res.2 with
      | some tid =>
        let rest := process_data_directory res.1 fs
        (rest.1, tid :: rest.2.1, rest.2.2)
      | none => (res.1, [], false)
    else process_data_directory st fs

/-- Embeds the exit behaviour of `main`: `sys.exit(1)` when the data
directory does not exist; a normal return exits 0; an exception escaping
`process_data_directory` terminates the interpreter with status 1. -/
def main_exit (dirExists : Bool) (st : Store)
    (files : List (List Char × List Entry)) : Nat :=
  if dirExists then
    (if (process_data_directory st files).2.2 then 0 else 1)
  else 1

/-! ## Basic lemmas -/

theorem toNat_bounds_of_isDigit {c : Char} (h : c.isDigit = true) :
    48 ≤ c.toNat ∧ c.toNat ≤ 57 := by
  simp only [Char.isDigit, ge_iff_le, Bool.and_eq_true, decide_eq_true_eq] at h
  obtain ⟨h1, h2⟩ := h
  rw [UInt32.le_def, BitVec.le_def] at h1 h2
  exact ⟨h1, h2⟩

theorem digit?_digitChar {k : Nat} (h : k ≤ 9) :
    digit? (Nat.digitChar k) = some k := by
  interval_cases k <;> decide

theorem digitChar_ne_dot {k : Nat} (h : k ≤ 9) : Nat.digitChar k ≠ '.' := by
  interval_cases k <;> decide

theorem hasKey_iff_countKey (t : Table) (ts : DT) :
    hasKey t ts = true ↔ 0 < countKey t ts := by
  simp [hasKey, countKey, List.any_eq_true, List.countP_pos_iff]

theorem countKey_append (t1 t2 : Table) (ts : DT) :
    countKey (t1 ++ t2) ts = countKey t1 ts + countKey t2 ts :=
  List.countP_append _ _ _

theorem lookupRow_append (t1 t2 : Table) (ts : DT) :
    lookupRow (t1 ++ t2) ts = (lookupRow t1 ts).or (lookupRow t2 ts) :=
  List.find?_append

/-- Claim C1: inserting the same (timestamp, bid, ask) record twice into a
table satisfying the primary-key invariant raises no error (the insert is
the total function `insert_batch`, INSERT IGNORE being collision-silent)
and leaves exactly one row with that timestamp. -/
theorem insert_same_record_twice_leaves_one_row (t : Table) (r : Row)
    (h : countKey t r.1 ≤ 1) :
    countKey (insert_batch (insert_batch t [r]) [r]) r.1 = 1 := by
  simp only [insert_batch, List.foldl_cons, List.foldl_nil]
  unfold insert_ignore
  by_cases hk : hasKey t r.1 = true
  · rw [if_pos hk, if_pos hk]
    have := (hasKey_iff_countKey t r.1).mp hk
    omega
  · rw [if_neg hk]
    have h0 : countKey t r.1 = 0 := by
      rcases Nat.eq_zero_or_pos (countKey t r.1) with h' | h'
      · exact h'
      · exact absurd ((hasKey_iff_countKey t r.1).mpr h') hk
    have h1 : countKey (t ++ [r]) r.1 = 1 := by
      rw [countKey_append, h0]
      simp [countKey]
    have hk2 : hasKey (t ++ [r]) r.1 = true :=
      (hasKey_iff_countKey _ _).mpr (by omega)
    rw [if_pos hk2]
    exact h1

/-- Witness for C1 at a concrete table and row. -/
theorem insert_same_record_twice_leaves_one_row_witness :
    countKey (insert_batch (insert_batch
      [((⟨2024, 8, 1, 0, 0, 0, 500000⟩ : DT), String.data "1.5", String.data "1.6")]
      [((⟨2024, 8, 1, 0, 0, 0, 110500⟩ : DT), String.data "1.08423", String.data "1.08431")])
      [((⟨2024, 8, 1, 0, 0, 0, 110500⟩ : DT), String.data "1.08423", String.data "1.08431")])
      (⟨2024, 8, 1, 0, 0, 0, 110500⟩ : DT) = 1 :=
  insert_same_record_twice_leaves_one_row
    [((⟨2024, 8, 1, 0, 0, 0, 500000⟩ : DT), String.data "1.5", String.data "1.6")]
    ((⟨2024, 8, 1, 0, 0, 0, 110500⟩ : DT), String.data "1.08423", String.data "1.08431")
    (by decide)

theorem lookupRow_insert_ignore_of_some (t : Table) (x : Row) (ts : DT) (r0 : Row)
    (h : lookupRow t ts = some r0) :
    lookupRow (insert_ignore t x) ts = some r0 := by
  unfold insert_ignore
  split
  · exact h
  · rw [lookupRow_append, h]
    rfl

theorem lookupRow_insert_ignore_of_ne (t : Table) (x : Row) (ts : DT)
    (h : ts ≠ x.1) :
    lookupRow (insert_ignore t x) ts = lookupRow t ts := by
  unfold insert_ignore
  split
  · rfl
  · rw [lookupRow_append]
    have hx : (x.1 == ts) = false := by
      rw [beq_eq_false_iff_ne]
      exact fun e => h e.symm
    have hnone : lookupRow [x] ts = none := by
      simp [lookupRow, List.find?, hx]
    rw [hnone, Option.or_none]

/-- Claim C7: `insert_batch` never overwrites: a row already stored under
a timestamp is still the stored row after the call, and any timestamp not
among the inserted rows maps to exactly what it mapped to before. -/
theorem insert_batch_preserves_existing_rows (t : Table) (rows : List Row) (ts : DT) :
    (∀ r0, lookupRow t ts = some r0 → lookupRow (insert_batch t rows) ts = some r0) ∧
    (ts ∉ rows.map (fun r => r.1) → lookupRow (insert_batch t rows) ts = lookupRow t ts) := by
  induction rows generalizing t with
  | nil => exact ⟨fun r0 h => h, fun _ => rfl⟩
  | cons x xs ih =>
    have hstep : insert_batch t (x :: xs) = insert_batch (insert_ignore t x) xs := rfl
    constructor
    · intro r0 h0
      rw [hstep]
      exact (ih (insert_ignore t x)).1 r0 (lookupRow_insert_ignore_of_some t x ts r0 h0)
    · intro hmem
      have hne : ts ≠ x.1 := by
        intro e
        exact hmem (by simp [e])
      have hxs : ts ∉ xs.map (fun r => r.1) := by
        intro e
        exact hmem (by simp [e])
      rw [hstep, (ih (insert_ignore t x)).2 hxs,
        lookupRow_insert_ignore_of_ne t x ts hne]

/-- Witness for C7: a pre-existing row with colliding timestamp keeps its
original bid and ask. -/
theorem insert_batch_preserves_existing_rows_witness :
    lookupRow (insert_batch
      [((⟨2024, 8, 1, 0, 0, 0, 110500⟩ : DT), String.data "1.5", String.data "1.6")]
      [((⟨2024, 8, 1, 0, 0, 0, 110500⟩ : DT), String.data "9.9", String.data "9.8")])
      (⟨2024, 8, 1, 0, 0, 0, 110500⟩ : DT) =
      some ((⟨2024, 8, 1, 0, 0, 0, 110500⟩ : DT), String.data "1.5", String.data "1.6") :=
  (insert_batch_preserves_existing_rows
    [((⟨2024, 8, 1, 0, 0, 0, 110500⟩ : DT), String.data "1.5", String.data "1.6")]
    [((⟨2024, 8, 1, 0, 0, 0, 110500⟩ : DT), String.data "9.9", String.data "9.8")]
    (⟨2024, 8, 1, 0, 0, 0, 110500⟩ : DT)).1
    ((⟨2024, 8, 1, 0, 0, 0, 110500⟩ : DT), String.data "1.5", String.data "1.6")
    (by decide)

/-! ## Admission filter -/

theorem containsSub_iff (hay needle : List Char) :
    containsSub hay needle = true ↔ needle <:+: hay := by
  induction hay with
  | nil =>
    simp [containsSub, List.isEmpty_iff]
  | cons a t ih =>
    rw [containsSub, Bool.or_eq_true, ih, List.infix_cons_iff,
      List.isPrefixOf_iff_prefix]

/-- Claim C5: a visited file is admitted exactly when its name ends in
`.zip` and contains one of the eight currency codes as a substring; in
particular `EURJPY-2024-08.zip` is selected and `readme.zip` is
rejected. -/
theorem admission_filter_characterisation :
    (∀ f : List Char, admitted f = true ↔
      (String.data ".zip" <:+ f ∧ ∃ c ∈ currency_codes, c <:+: f)) ∧
    admitted (String.data "EURJPY-2024-08.zip") = true ∧
    admitted (String.data "readme.zip") = false := by
  refine ⟨fun f => ?_, by decide, by decide⟩
  rw [admitted, Bool.and_eq_true, List.isSuffixOf_iff_suffix, List.any_eq_true]
  constructor
  · rintro ⟨h1, c, hc, h2⟩
    exact ⟨h1, c, hc, (containsSub_iff f c).mp h2⟩
  · rintro ⟨h1, c, hc, h2⟩
    exact ⟨h1, c, hc, (containsSub_iff f c).mpr h2⟩

/-! ## Batch abort semantics -/

/-- Claim C6 (amended): the only row-level failure is an unparseable
timestamp — a non-numeric bid/ask cell does not abort (see the
counterexample).  When every chunk before some failing chunk converts
and the failing chunk holds an unparseable timestamp, the chunk loop
commits exactly the prior chunks (each by one batched insert), commits
nothing of the failing chunk or of any later chunk, and reports failure
rather than skipping rows. -/
theorem row_failure_aborts_archive (t : Table) (pre post : List (List RawRow))
    (bad : List RawRow)
    (hpre : ∀ b ∈ pre, (parseBatch b).isSome = true)
    (hbad : parseBatch bad = none) :
    runBatches t (pre ++ bad :: post) = (pre.foldl applyBatch t, false) := by
  induction pre generalizing t with
  | nil =>
    simp only [List.nil_append, List.foldl_nil, runBatches, hbad]
  | cons b bs ih =>
    obtain ⟨rows, hrows⟩ := Option.isSome_iff_exists.mp (hpre b (by simp))
    have happ : applyBatch t b = insert_batch t rows := by
      simp [applyBatch, hrows]
    simp only [List.cons_append, runBatches, hrows, List.foldl_cons, happ]
    exact ih (insert_batch t rows) (fun x hx => hpre x (by simp [hx]))

/-- Witness for C6 (amended) at a concrete archive: one good chunk, one
bad chunk (unparseable timestamp), one later chunk. -/
theorem row_failure_aborts_archive_witness :
    runBatches []
      ([[(String.data "EURUSD", String.data "20240801 00:00:00.110",
          String.data "1.08423", String.data "1.08431")]] ++
        [(String.data "EURUSD", String.data "bad",
          String.data "1.08420", String.data "1.08429")] ::
        [[(String.data "EURUSD", String.data "20240801 00:00:01",
          String.data "1.08420", String.data "1.08429")]]) =
      ([[(String.data "EURUSD", String.data "20240801 00:00:00.110",
          String.data "1.08423", String.data "1.08431")]].foldl applyBatch [], false) :=
  row_failure_aborts_archive []
    [[(String.data "EURUSD", String.data "20240801 00:00:00.110",
       String.data "1.08423", String.data "1.08431")]]
    [[(String.data "EURUSD", String.data "20240801 00:00:01",
       String.data "1.08420", String.data "1.08429")]]
    [(String.data "EURUSD", String.data "bad",
      String.data "1.08420", String.data "1.08429")]
    (by decide) (by decide)

/-- Counterexample for C6 as stated: a non-numeric bid value does not
abort the archive import.  The bid/ask cells are never checked
client-side, and server-side the INSERT IGNORE statement downgrades the
DECIMAL conversion error to a warning and inserts the coerced value, so
the chunk commits (success flag `true`) and a row with that timestamp is
stored. -/
theorem nonnumeric_bid_does_not_abort :
    (runBatches [] [[(String.data "EURUSD", String.data "20240801 00:00:00.500",
        String.data "abc", String.data "1.08429")]]).2 = true ∧
    countKey (runBatches [] [[(String.data "EURUSD", String.data "20240801 00:00:00.500",
        String.data "abc", String.data "1.08429")]]).1
      (⟨2024, 8, 1, 0, 0, 0, 500000⟩ : DT) = 1 := by
  decide

/-! ## Exit behaviour and empty archives -/

/-- Claim C9 (amended): a missing data directory exits non-zero (status 1
from `sys.exit(1)`); with the directory present the process exits 0
exactly when the whole run completes without error, an uncaught error
during the run also terminating with a non-zero status. -/
theorem exit_status_characterisation (st : Store)
    (files : List (List Char × List Entry)) :
    main_exit false st files = 1 ∧
    (main_exit true st files = 0 ↔ (process_data_directory st files).2.2 = true) := by
  constructor
  · rfl
  · unfold main_exit
    by_cases hok : (process_data_directory st files).2.2 = true
    · simp [hok]
    · simp [hok]

/-- Counterexample for C9 as stated: the data directory exists, but a
failing archive (unparseable timestamp in its CSV) makes the run abort,
and the process exit status is not 0. -/
theorem exit_nonzero_with_existing_directory :
    main_exit true []
      [(String.data "EURUSD-2024-08.zip",
        [(String.data "ticks.csv",
          [(String.data "EURUSD", String.data "bad",
            String.data "1.0", String.data "1.0")])])] ≠ 0 := by
  decide

theorem entriesLoop_no_csv (st : Store) (tid : TableId) (entries : List Entry)
    (h : ∀ e ∈ entries, csvName e.1 = false) :
    entriesLoop st tid entries = (st, true) := by
  induction entries with
  | nil => rfl
  | cons e es ih =>
    have he : csvName e.1 = false := h e (by simp)
    rw [entriesLoop, he]
    simp only [Bool.false_eq_true, if_false]
    exact ih (fun x hx => h x (by simp [hx]))

/-- Claim C10: for an admitted archive the table is created (empty, by
the CREATE TABLE IF NOT EXISTS issued before any entry is read), so an
archive with no `.csv` entry still creates its table, inserts zero rows,
and has its table identifier reported as successfully processed. -/
theorem empty_archive_creates_table (st : Store) (fname : List Char)
    (tid : TableId) (entries : List Entry)
    (hadm : admitted fname = true)
    (hname : get_table_name fname = some tid)
    (hfresh : hasTable st tid = false)
    (hnocsv : ∀ e ∈ entries, csvName e.1 = false) :
    process_data_directory st [(fname, entries)] = (st ++ [(tid, [])], [tid], true) ∧
    getTable (st ++ [(tid, [])]) tid = [] := by
  have hens : ensure_table st tid = st ++ [(tid, [])] := by
    rw [ensure_table, hfresh]
    simp
  have hzip : process_zip_file st fname entries = (st ++ [(tid, [])], some tid) := by
    rw [process_zip_file, hname]
    simp only [hens, entriesLoop_no_csv _ _ _ hnocsv, if_true]
  refine ⟨?_, ?_⟩
  · rw [process_data_directory, hadm]
    simp only [hzip, if_true, process_data_directory]
  · rw [getTable]
    have hnone : (st.find? fun p => p.1 == tid) = none := by
      rw [List.find?_eq_none]
      intro x hx hb
      rw [hasTable] at hfresh
      have := List.any_eq_false.mp hfresh x hx
      exact this hb
    rw [List.find?_append, hnone]
    simp [List.find?]

/-- Witness for C10 at a concrete archive with no csv entry. -/
theorem empty_archive_creates_table_witness :
    process_data_directory [] [(String.data "EURUSD-2024-08.zip",
        [(String.data "readme.txt", [])])] =
      ([(String.data "EURUSD_2024_08", [])], [String.data "EURUSD_2024_08"], true) ∧
    getTable ([] ++ [(String.data "EURUSD_2024_08", [])])
      (String.data "EURUSD_2024_08") = [] := by
  have h := empty_archive_creates_table [] (String.data "EURUSD-2024-08.zip")
    (String.data "EURUSD_2024_08") [(String.data "readme.txt", [])]
    (by decide) (by decide) (by decide) (by decide)
  simpa using h

/-! ## strptime on canonically rendered timestamps -/

theorem pYear_pad4 (y : Nat) (r : List Char) (h : y ≤ 9999) :
    pYear (pad4 y ++ r) = some (y, r) := by
  have d1 := digit?_digitChar (k := y / 1000 % 10) (by omega)
  have d2 := digit?_digitChar (k := y / 100 % 10) (by omega)
  have d3 := digit?_digitChar (k := y / 10 % 10) (by omega)
  have d4 := digit?_digitChar (k := y % 10) (by omega)
  simp only [pad4, List.cons_append, List.nil_append, pYear, d1, d2, d3, d4]
  have : 1000 * (y / 1000 % 10) + 100 * (y / 100 % 10) + 10 * (y / 10 % 10) + y % 10 = y := by
    omega
  rw [this]

theorem pMonthAlts_pad2 (mo : Nat) (r : List Char) (h1 : 1 ≤ mo) (h2 : mo ≤ 12) :
    ∃ tl, pMonthAlts (pad2 mo ++ r) = (mo, r) :: tl := by
  have da := digit?_digitChar (k := mo / 10 % 10) (by omega)
  have db := digit?_digitChar (k := mo % 10) (by omega)
  simp only [pad2, List.cons_append, List.nil_append, pMonthAlts, da, db]
  rcases Nat.lt_or_ge mo 10 with h10 | h10
  · have ha : mo / 10 % 10 = 0 := by omega
    have hb : mo % 10 = mo := by omega
    rw [ha, hb, if_neg (by omega), if_pos (by simp [h1]), if_neg (by omega)]
    exact ⟨[], rfl⟩
  · have ha : mo / 10 % 10 = 1 := by omega
    have hb : 10 + mo % 10 = mo := by omega
    rw [ha, if_pos (by omega), if_neg (by omega), if_pos (by omega), hb]
    exact ⟨[(1, Nat.digitChar (mo % 10) :: r)], rfl⟩

theorem pDayAlts_pad2 (d : Nat) (r : List Char) (h1 : 1 ≤ d) (h2 : d ≤ 31) :
    ∃ tl, pDayAlts (pad2 d ++ r) = (d, r) :: tl := by
  have da := digit?_digitChar (k := d / 10 % 10) (by omega)
  have db := digit?_digitChar (k := d % 10) (by omega)
  simp only [pad2, List.cons_append, List.nil_append, pDayAlts, da, db]
  rcases Nat.lt_or_ge d 10 with h10 | h10
  · have ha : d / 10 % 10 = 0 := by omega
    have hb : d % 10 = d := by omega
    rw [ha, hb, if_neg (by omega), if_neg (by omega), if_pos (by simp [h1]),
      if_neg (by omega)]
    exact ⟨[], rfl⟩
  · rcases Nat.lt_or_ge d 30 with h30 | h30
    · have ha : d / 10 % 10 = 1 ∨ d / 10 % 10 = 2 := by omega
      have hb : 10 * (d / 10 % 10) + d % 10 = d := by omega
      rw [if_neg (by omega), if_pos ha, hb, if_neg (by omega), if_pos (by omega)]
      exact ⟨[(d / 10 % 10, Nat.digitChar (d % 10) :: r)], rfl⟩
    · have ha : d / 10 % 10 = 3 := by omega
      have hb : 30 + d % 10 = d := by omega
      rw [ha, if_pos (by omega), hb, if_neg (by omega), if_neg (by omega),
        if_pos (by omega)]
      exact ⟨[(3, Nat.digitChar (d % 10) :: r)], rfl⟩

theorem pHourAlts_pad2 (h : Nat) (r : List Char) (hh : h ≤ 23) :
    ∃ tl, pHourAlts (pad2 h ++ r) = (h, r) :: tl := by
  have da := digit?_digitChar (k := h / 10 % 10) (by omega)
  have db := digit?_digitChar (k := h % 10) (by omega)
  simp only [pad2, List.cons_append, List.nil_append, pHourAlts, da, db]
  rcases Nat.lt_or_ge h 20 with h20 | h20
  · have hb : 10 * (h / 10 % 10) + h % 10 = h := by omega
    rw [if_neg (by omega), if_pos (by omega), hb]
    exact ⟨[(h / 10 % 10, Nat.digitChar (h % 10) :: r)], rfl⟩
  · have ha : h / 10 % 10 = 2 := by omega
    have hb : 20 + h % 10 = h := by omega
    rw [ha, if_pos (by omega), hb, if_neg (by omega)]
    exact ⟨[(2, Nat.digitChar (h % 10) :: r)], rfl⟩

theorem pMinAlts_pad2 (mi : Nat) (r : List Char) (hmi : mi ≤ 59) :
    ∃ tl, pMinAlts (pad2 mi ++ r) = (mi, r) :: tl := by
  have da := digit?_digitChar (k := mi / 10 % 10) (by omega)
  have db := digit?_digitChar (k := mi % 10) (by omega)
  simp only [pad2, List.cons_append, List.nil_append, pMinAlts, da, db]
  have hb : 10 * (mi / 10 % 10) + mi % 10 = mi := by omega
  rw [if_pos (by omega), hb]
  exact ⟨[(mi / 10 % 10, Nat.digitChar (mi % 10) :: r)], rfl⟩

theorem pSecAlts_pad2 (s : Nat) (r : List Char) (hs : s ≤ 59) :
    ∃ tl, pSecAlts (pad2 s ++ r) = (s, r) :: tl := by
  have da := digit?_digitChar (k := s / 10 % 10) (by omega)
  have db := digit?_digitChar (k := s % 10) (by omega)
  simp only [pad2, List.cons_append, List.nil_append, pSecAlts, da, db]
  have hb : 10 * (s / 10 % 10) + s % 10 = s := by omega
  rw [if_neg (by omega), if_pos (by omega), hb]
  exact ⟨[(s / 10 % 10, Nat.digitChar (s % 10) :: r)], rfl⟩

theorem fracTail_digits (ds : List Char) (h1 : ds ≠ []) (h6 : ds.length ≤ 6)
    (hdig : ∀ c ∈ ds, c.isDigit = true) :
    fracTail ('.' :: ds) = some (fracUsec ds, []) := by
  have ht : ds.takeWhile Char.isDigit = ds := by
    have := @List.takeWhile_append_of_pos _ Char.isDigit ds [] hdig
    simpa using this
  rw [fracTail]
  simp only [ht, List.take_of_length_le h6]
  rw [if_neg (by simpa [List.isEmpty_iff] using h1)]
  rw [List.drop_length]

theorem findSome?_head_some {α β : Type} (f : α → Option β) (a : α) (l : List α)
    (b : β) (h : f a = some b) : (a :: l).findSome? f = some b := by
  rw [List.findSome?_cons, h]

theorem pTime_frac_render (h mi s : Nat) (ds : List Char)
    (hh : h ≤ 23) (hmi : mi ≤ 59) (hs : s ≤ 59)
    (h1 : ds ≠ []) (h6 : ds.length ≤ 6) (hdig : ∀ c ∈ ds, c.isDigit = true) :
    pTime true (pad2 h ++ ':' :: (pad2 mi ++ ':' :: (pad2 s ++ '.' :: ds))) =
      some (h, mi, s, fracUsec ds, []) := by
  obtain ⟨tlh, eh⟩ := pHourAlts_pad2 h (':' :: (pad2 mi ++ ':' :: (pad2 s ++ '.' :: ds))) hh
  obtain ⟨tlm, em⟩ := pMinAlts_pad2 mi (':' :: (pad2 s ++ '.' :: ds)) hmi
  obtain ⟨tls, es⟩ := pSecAlts_pad2 s ('.' :: ds) hs
  rw [pTime, eh]
  refine findSome?_head_some _ _ _ _ ?_
  simp only [em]
  refine findSome?_head_some _ _ _ _ ?_
  simp only [es]
  refine findSome?_head_some _ _ _ _ ?_
  simp only [if_true, fracTail_digits ds h1 h6 hdig]

theorem pTime_plain_render (h mi s : Nat)
    (hh : h ≤ 23) (hmi : mi ≤ 59) (hs : s ≤ 59) :
    pTime false (pad2 h ++ ':' :: (pad2 mi ++ ':' :: pad2 s)) =
      some (h, mi, s, 0, []) := by
  obtain ⟨tlh, eh⟩ := pHourAlts_pad2 h (':' :: (pad2 mi ++ ':' :: pad2 s)) hh
  obtain ⟨tlm, em⟩ := pMinAlts_pad2 mi (':' :: pad2 s) hmi
  obtain ⟨tls, es⟩ := pSecAlts_pad2 s [] hs
  rw [pTime, eh]
  refine findSome?_head_some _ _ _ _ ?_
  simp only [em]
  refine findSome?_head_some _ _ _ _ ?_
  have es' : pSecAlts (pad2 s) = (s, []) :: tls := by
    simpa using es
  simp only [es']
  exact findSome?_head_some _ _ _ _ rfl

theorem daysInMonth_le_31 (y m : Nat) : daysInMonth y m ≤ 31 := by
  rw [daysInMonth]
  split
  · split <;> omega
  · split <;> omega

theorem digitsVal_foldl_lt (ds : List Char) (hdig : ∀ c ∈ ds, c.isDigit = true) :
    ∀ acc, ds.foldl (fun a c => 10 * a + (c.toNat - 48)) acc < (acc + 1) * 10 ^ ds.length := by
  induction ds with
  | nil => intro acc; simp
  | cons c cs ih =>
    intro acc
    have hc : c.toNat - 48 ≤ 9 := by
      have := toNat_bounds_of_isDigit (hdig c (by simp))
      omega
    have step := ih (fun x hx => hdig x (by simp [hx])) (10 * acc + (c.toNat - 48))
    have hle : (10 * acc + (c.toNat - 48) + 1) * 10 ^ cs.length ≤
        (acc + 1) * 10 ^ (cs.length + 1) := by
      have : 10 * acc + (c.toNat - 48) + 1 ≤ (acc + 1) * 10 := by omega
      calc (10 * acc + (c.toNat - 48) + 1) * 10 ^ cs.length
          ≤ ((acc + 1) * 10) * 10 ^ cs.length := Nat.mul_le_mul_right _ this
        _ = (acc + 1) * 10 ^ (cs.length + 1) := by ring
    simp only [List.foldl_cons, List.length_cons]
    exact Nat.lt_of_lt_of_le step hle

theorem fracUsec_lt (ds : List Char) (h6 : ds.length ≤ 6)
    (hdig : ∀ c ∈ ds, c.isDigit = true) : fracUsec ds ≤ 999999 := by
  have h1 : digitsVal ds < 10 ^ ds.length := by
    simpa using digitsVal_foldl_lt ds hdig 0
  have h2 : fracUsec ds ≤ (10 ^ ds.length - 1) * 10 ^ (6 - ds.length) := by
    rw [fracUsec]
    exact Nat.mul_le_mul_right _ (by omega)
  have h3 : 10 ^ ds.length * 10 ^ (6 - ds.length) = 1000000 := by
    rw [← pow_add]
    have he : ds.length + (6 - ds.length) = 6 := by omega
    rw [he]
    norm_num
  have h4 : 1 ≤ 10 ^ (6 - ds.length) := Nat.one_le_pow _ _ (by omega)
  have h5 : (10 ^ ds.length - 1) * 10 ^ (6 - ds.length) =
      10 ^ ds.length * 10 ^ (6 - ds.length) - 10 ^ (6 - ds.length) := by
    rw [Nat.sub_mul, one_mul]
  omega

theorem datetimeValid_fields (y mo d h mi s us : Nat)
    (hy1 : 1 ≤ y) (hy2 : y ≤ 9999) (hmo1 : 1 ≤ mo) (hmo2 : mo ≤ 12)
    (hd1 : 1 ≤ d) (hd2 : d ≤ daysInMonth y mo)
    (hh : h ≤ 23) (hmi : mi ≤ 59) (hs : s ≤ 59) (hus : us ≤ 999999) :
    datetimeValid ⟨y, mo, d, h, mi, s, us⟩ = true := by
  rw [datetimeValid, decide_eq_true_eq]
  exact ⟨hy1, hy2, hmo1, hmo2, hd1, hd2, hh, hmi, hs, hus⟩

theorem matchCore_frac_render (y mo d h mi s : Nat) (ds : List Char)
    (hy2 : y ≤ 9999) (hmo1 : 1 ≤ mo) (hmo2 : mo ≤ 12)
    (hd1 : 1 ≤ d) (hd2 : d ≤ 31) (hh : h ≤ 23) (hmi : mi ≤ 59) (hs : s ≤ 59)
    (h1 : ds ≠ []) (h6 : ds.length ≤ 6) (hdig : ∀ c ∈ ds, c.isDigit = true) :
    matchCore true (renderTS y mo d h mi s ++ '.' :: ds) =
      some (⟨y, mo, d, h, mi, s, fracUsec ds⟩, []) := by
  have e : renderTS y mo d h mi s ++ '.' :: ds =
      pad4 y ++ (pad2 mo ++ (pad2 d ++ ' ' ::
        (pad2 h ++ ':' :: (pad2 mi ++ ':' :: (pad2 s ++ '.' :: ds))))) := by
    simp [renderTS, List.append_assoc]
  obtain ⟨tlmo, emo⟩ := pMonthAlts_pad2 mo
    (pad2 d ++ ' ' :: (pad2 h ++ ':' :: (pad2 mi ++ ':' :: (pad2 s ++ '.' :: ds))))
    hmo1 hmo2
  obtain ⟨tld, ed⟩ := pDayAlts_pad2 d
    (' ' :: (pad2 h ++ ':' :: (pad2 mi ++ ':' :: (pad2 s ++ '.' :: ds)))) hd1 hd2
  rw [e, matchCore, pYear_pad4 _ _ hy2]
  simp only [emo]
  refine findSome?_head_some _ _ _ _ ?_
  simp only [ed]
  refine findSome?_head_some _ _ _ _ ?_
  simp only [pTime_frac_render h mi s ds hh hmi hs h1 h6 hdig, Option.map_some']

theorem matchCore_plain_render (y mo d h mi s : Nat)
    (hy2 : y ≤ 9999) (hmo1 : 1 ≤ mo) (hmo2 : mo ≤ 12)
    (hd1 : 1 ≤ d) (hd2 : d ≤ 31) (hh : h ≤ 23) (hmi : mi ≤ 59) (hs : s ≤ 59) :
    matchCore false (renderTS y mo d h mi s) =
      some (⟨y, mo, d, h, mi, s, 0⟩, []) := by
  have e : renderTS y mo d h mi s =
      pad4 y ++ (pad2 mo ++ (pad2 d ++ ' ' ::
        (pad2 h ++ ':' :: (pad2 mi ++ ':' :: pad2 s)))) := by
    simp [renderTS, List.append_assoc]
  obtain ⟨tlmo, emo⟩ := pMonthAlts_pad2 mo
    (pad2 d ++ ' ' :: (pad2 h ++ ':' :: (pad2 mi ++ ':' :: pad2 s))) hmo1 hmo2
  obtain ⟨tld, ed⟩ := pDayAlts_pad2 d
    (' ' :: (pad2 h ++ ':' :: (pad2 mi ++ ':' :: pad2 s))) hd1 hd2
  rw [e, matchCore, pYear_pad4 _ _ hy2]
  simp only [emo]
  refine findSome?_head_some _ _ _ _ ?_
  simp only [ed]
  refine findSome?_head_some _ _ _ _ ?_
  simp only [pTime_plain_render h mi s hh hmi hs, Option.map_some']

theorem suffix_cons2 {α : Type} {a b : α} {l : List α} : l <:+ a :: b :: l :=
  (List.suffix_cons b l).trans (List.suffix_cons a (b :: l))

theorem pMonthAlts_rest_suffix (s : List Char) :
    ∀ x ∈ pMonthAlts s, x.2 <:+ s := by
  intro x hx
  rcases s with _ | ⟨c1, _ | ⟨c2, r⟩⟩
  · simp [pMonthAlts] at hx
  · simp only [pMonthAlts, List.nil_append] at hx
    cases hd1 : digit? c1 with
    | none => simp [hd1] at hx
    | some a =>
      simp only [hd1] at hx
      try split_ifs at hx
      all_goals simp at hx
      all_goals (rw [hx]; exact List.nil_suffix)
  · simp only [pMonthAlts] at hx
    cases hd1 : digit? c1 with
    | none => simp [hd1] at hx
    | some a =>
      cases hd2 : digit? c2 with
      | none =>
        simp only [hd1, hd2, List.nil_append] at hx
        try split_ifs at hx
        all_goals simp at hx
        all_goals (rw [hx]; exact List.suffix_cons c1 (c2 :: r))
      | some b =>
        simp only [hd1, hd2] at hx
        try split_ifs at hx
        all_goals
          simp at hx <;>
          first
          | (exfalso; omega)
          | (rcases hx with rfl | rfl | rfl <;>
              first
              | exact suffix_cons2
              | exact List.suffix_cons c1 (c2 :: r))
          | (rcases hx with rfl | rfl <;>
              first
              | exact suffix_cons2
              | exact List.suffix_cons c1 (c2 :: r))
          | (rw [hx]; exact suffix_cons2)
          | (rw [hx]; exact List.suffix_cons c1 (c2 :: r))

theorem pDayAlts_rest_suffix (s : List Char) :
    ∀ x ∈ pDayAlts s, x.2 <:+ s := by
  intro x hx
  rcases s with _ | ⟨c1, _ | ⟨c2, r⟩⟩
  · simp [pDayAlts] at hx
  · simp only [pDayAlts, List.nil_append] at hx
    cases hd1 : digit? c1 with
    | none => simp [hd1] at hx
    | some a =>
      simp only [hd1] at hx
      try split_ifs at hx
      all_goals simp at hx
      all_goals (rw [hx]; exact List.nil_suffix)
  · simp only [pDayAlts] at hx
    cases hd1 : digit? c1 with
    | none => simp [hd1] at hx
    | some a =>
      cases hd2 : digit? c2 with
      | none =>
        simp only [hd1, hd2, List.nil_append] at hx
        try split_ifs at hx
        all_goals simp at hx
        all_goals (rw [hx]; exact List.suffix_cons c1 (c2 :: r))
      | some b =>
        simp only [hd1, hd2] at hx
        try split_ifs at hx
        all_goals
          simp at hx <;>
          first
          | (exfalso; omega)
          | (rcases hx with rfl | rfl | rfl <;>
              first
              | exact suffix_cons2
              | exact List.suffix_cons c1 (c2 :: r))
          | (rcases hx with rfl | rfl <;>
              first
              | exact suffix_cons2
              | exact List.suffix_cons c1 (c2 :: r))
          | (rw [hx]; exact suffix_cons2)
          | (rw [hx]; exact List.suffix_cons c1 (c2 :: r))

theorem pHourAlts_rest_suffix (s : List Char) :
    ∀ x ∈ pHourAlts s, x.2 <:+ s := by
  intro x hx
  rcases s with _ | ⟨c1, _ | ⟨c2, r⟩⟩
  · simp [pHourAlts] at hx
  · simp only [pHourAlts, List.nil_append] at hx
    cases hd1 : digit? c1 with
    | none => simp [hd1] at hx
    | some a =>
      simp only [hd1] at hx
      try split_ifs at hx
      all_goals simp at hx
      all_goals (rw [hx]; exact List.nil_suffix)
  · simp only [pHourAlts] at hx
    cases hd1 : digit? c1 with
    | none => simp [hd1] at hx
    | some a =>
      cases hd2 : digit? c2 with
      | none =>
        simp only [hd1, hd2, List.nil_append] at hx
        try split_ifs at hx
        all_goals simp at hx
        all_goals (rw [hx]; exact List.suffix_cons c1 (c2 :: r))
      | some b =>
        simp only [hd1, hd2] at hx
        try split_ifs at hx
        all_goals
          simp at hx <;>
          first
          | (exfalso; omega)
          | (rcases hx with rfl | rfl | rfl <;>
              first
              | exact suffix_cons2
              | exact List.suffix_cons c1 (c2 :: r))
          | (rcases hx with rfl | rfl <;>
              first
              | exact suffix_cons2
              | exact List.suffix_cons c1 (c2 :: r))
          | (rw [hx]; exact suffix_cons2)
          | (rw [hx]; exact List.suffix_cons c1 (c2 :: r))

theorem pMinAlts_rest_suffix (s : List Char) :
    ∀ x ∈ pMinAlts s, x.2 <:+ s := by
  intro x hx
  rcases s with _ | ⟨c1, _ | ⟨c2, r⟩⟩
  · simp [pMinAlts] at hx
  · simp only [pMinAlts, List.nil_append] at hx
    cases hd1 : digit? c1 with
    | none => simp [hd1] at hx
    | some a =>
      simp only [hd1] at hx
      try split_ifs at hx
      all_goals simp at hx
      all_goals (rw [hx]; exact List.nil_suffix)
  · simp only [pMinAlts] at hx
    cases hd1 : digit? c1 with
    | none => simp [hd1] at hx
    | some a =>
      cases hd2 : digit? c2 with
      | none =>
        simp only [hd1, hd2, List.nil_append] at hx
        try split_ifs at hx
        all_goals simp at hx
        all_goals (rw [hx]; exact List.suffix_cons c1 (c2 :: r))
      | some b =>
        simp only [hd1, hd2] at hx
        try split_ifs at hx
        all_goals
          simp at hx <;>
          first
          | (exfalso; omega)
          | (rcases hx with rfl | rfl | rfl <;>
              first
              | exact suffix_cons2
              | exact List.suffix_cons c1 (c2 :: r))
          | (rcases hx with rfl | rfl <;>
              first
              | exact suffix_cons2
              | exact List.suffix_cons c1 (c2 :: r))
          | (rw [hx]; exact suffix_cons2)
          | (rw [hx]; exact List.suffix_cons c1 (c2 :: r))

theorem pSecAlts_rest_suffix (s : List Char) :
    ∀ x ∈ pSecAlts s, x.2 <:+ s := by
  intro x hx
  rcases s with _ | ⟨c1, _ | ⟨c2, r⟩⟩
  · simp [pSecAlts] at hx
  · simp only [pSecAlts, List.nil_append] at hx
    cases hd1 : digit? c1 with
    | none => simp [hd1] at hx
    | some a =>
      simp only [hd1] at hx
      try split_ifs at hx
      all_goals simp at hx
      all_goals (rw [hx]; exact List.nil_suffix)
  · simp only [pSecAlts] at hx
    cases hd1 : digit? c1 with
    | none => simp [hd1] at hx
    | some a =>
      cases hd2 : digit? c2 with
      | none =>
        simp only [hd1, hd2, List.nil_append] at hx
        try split_ifs at hx
        all_goals simp at hx
        all_goals (rw [hx]; exact List.suffix_cons c1 (c2 :: r))
      | some b =>
        simp only [hd1, hd2] at hx
        try split_ifs at hx
        all_goals
          simp at hx <;>
          first
          | (exfalso; omega)
          | (rcases hx with rfl | rfl | rfl <;>
              first
              | exact suffix_cons2
              | exact List.suffix_cons c1 (c2 :: r))
          | (rcases hx with rfl | rfl <;>
              first
              | exact suffix_cons2
              | exact List.suffix_cons c1 (c2 :: r))
          | (rw [hx]; exact suffix_cons2)
          | (rw [hx]; exact List.suffix_cons c1 (c2 :: r))

theorem fracTail_dot {s : List Char} {x : Nat × List Char}
    (h : fracTail s = some x) : '.' ∈ s := by
  unfold fracTail at h
  split at h
  · simp
  · exact absurd h (by simp)

theorem pTime_true_dot {r : List Char} {x : Nat × Nat × Nat × Nat × List Char}
    (h : pTime true r = some x) : '.' ∈ r := by
  rw [pTime] at h
  obtain ⟨hm, hmemh, hsome⟩ := List.exists_of_findSome?_eq_some h
  have hsufh := pHourAlts_rest_suffix r hm hmemh
  split at hsome
  case _ r5 heq5 =>
    obtain ⟨mm, hmemm, hsome2⟩ := List.exists_of_findSome?_eq_some hsome
    have hsufm := pMinAlts_rest_suffix r5 mm hmemm
    split at hsome2
    case _ r7 heq7 =>
      obtain ⟨sm, hmems, hsome3⟩ := List.exists_of_findSome?_eq_some hsome2
      have hsufs := pSecAlts_rest_suffix r7 sm hmems
      simp only [if_true] at hsome3
      split at hsome3
      case _ us r9 heqf =>
        have hdot : '.' ∈ sm.2 := fracTail_dot heqf
        have h1 : '.' ∈ r7 := hsufs.subset hdot
        have h2 : '.' ∈ mm.2 := by
          rw [heq7]
          exact List.mem_cons_of_mem _ h1
        have h3 : '.' ∈ r5 := hsufm.subset h2
        have h4 : '.' ∈ hm.2 := by
          rw [heq5]
          exact List.mem_cons_of_mem _ h3
        exact hsufh.subset h4
      case _ => exact absurd hsome3 (by simp)
    case _ => exact absurd hsome2 (by simp)
  case _ => exact absurd hsome (by simp)

theorem pYear_rest_suffix {s : List Char} {y : Nat} {r : List Char}
    (h : pYear s = some (y, r)) : r <:+ s := by
  rcases s with _ | ⟨c1, _ | ⟨c2, _ | ⟨c3, _ | ⟨c4, rest⟩⟩⟩⟩
  · simp [pYear] at h
  · simp [pYear] at h
  · simp [pYear] at h
  · simp [pYear] at h
  · rw [pYear] at h
    cases hd1 : digit? c1 <;> cases hd2 : digit? c2 <;>
      cases hd3 : digit? c3 <;> cases hd4 : digit? c4 <;>
      simp [hd1, hd2, hd3, hd4] at h
    obtain ⟨-, hr⟩ := h
    rw [← hr]
    exact ((((List.suffix_cons c4 rest).trans
      (List.suffix_cons c3 (c4 :: rest))).trans
      (List.suffix_cons c2 (c3 :: c4 :: rest)))).trans
      (List.suffix_cons c1 (c2 :: c3 :: c4 :: rest))

theorem matchCore_true_dot {s : List Char} {x : DT × List Char}
    (h : matchCore true s = some x) : '.' ∈ s := by
  rw [matchCore] at h
  split at h
  case _ => exact absurd h (by simp)
  case _ y r0 heqy =>
    obtain ⟨mm, hmemm, hsome⟩ := List.exists_of_findSome?_eq_some h
    have hsufm := pMonthAlts_rest_suffix r0 mm hmemm
    obtain ⟨dm, hmemd, hsome2⟩ := List.exists_of_findSome?_eq_some hsome
    have hsufd := pDayAlts_rest_suffix mm.2 dm hmemd
    split at hsome2
    case _ r3 heq3 =>
      rcases Option.map_eq_some'.mp hsome2 with ⟨tm, htm, -⟩
      have hdot3 : '.' ∈ r3 := pTime_true_dot htm
      have h1 : '.' ∈ dm.2 := by
        rw [heq3]
        exact List.mem_cons_of_mem _ hdot3
      have h2 : '.' ∈ mm.2 := hsufd.subset h1
      have h3 : '.' ∈ r0 := hsufm.subset h2
      exact (pYear_rest_suffix heqy).subset h3
    case _ => exact absurd hsome2 (by simp)

theorem strptimeFull_true_of_no_dot {s : List Char} (h : '.' ∉ s) :
    strptimeFull true s = none := by
  rw [strptimeFull]
  cases hm : matchCore true s with
  | none => rfl
  | some p => exact absurd (matchCore_true_dot hm) h

theorem dot_not_mem_pad2 (n : Nat) : '.' ∉ pad2 n := by
  intro hm
  simp only [pad2, List.mem_cons, List.not_mem_nil, or_false] at hm
  rcases hm with he | he <;>
    exact absurd he.symm (digitChar_ne_dot (by omega))

theorem dot_not_mem_pad4 (n : Nat) : '.' ∉ pad4 n := by
  intro hm
  simp only [pad4, List.mem_cons, List.not_mem_nil, or_false] at hm
  rcases hm with he | he | he | he <;>
    exact absurd he.symm (digitChar_ne_dot (by omega))

theorem dot_not_mem_renderTS (y mo d h mi s : Nat) :
    '.' ∉ renderTS y mo d h mi s := by
  have h4 := dot_not_mem_pad4 y
  have h2a := dot_not_mem_pad2 mo
  have h2b := dot_not_mem_pad2 d
  have h2c := dot_not_mem_pad2 h
  have h2d := dot_not_mem_pad2 mi
  have h2e := dot_not_mem_pad2 s
  simp [renderTS, List.mem_append, List.mem_cons, h4, h2a, h2b, h2c, h2d, h2e]

theorem parse_render_frac (y mo d h mi s : Nat) (ds : List Char)
    (hy1 : 1 ≤ y) (hy2 : y ≤ 9999) (hmo1 : 1 ≤ mo) (hmo2 : mo ≤ 12)
    (hd1 : 1 ≤ d) (hd2 : d ≤ daysInMonth y mo)
    (hh : h ≤ 23) (hmi : mi ≤ 59) (hs : s ≤ 59)
    (h1 : ds ≠ []) (h6 : ds.length ≤ 6) (hdig : ∀ c ∈ ds, c.isDigit = true) :
    parse_timestamp (renderTS y mo d h mi s ++ '.' :: ds) =
      some ⟨y, mo, d, h, mi, s, fracUsec ds⟩ := by
  have hm := matchCore_frac_render y mo d h mi s ds hy2 hmo1 hmo2 hd1
    (le_trans hd2 (daysInMonth_le_31 y mo)) hh hmi hs h1 h6 hdig
  have hvalid := datetimeValid_fields y mo d h mi s (fracUsec ds)
    hy1 hy2 hmo1 hmo2 hd1 hd2 hh hmi hs (fracUsec_lt ds h6 hdig)
  have hfull : strptimeFull true (renderTS y mo d h mi s ++ '.' :: ds) =
      some ⟨y, mo, d, h, mi, s, fracUsec ds⟩ := by
    rw [strptimeFull, hm]
    simp [hvalid]
  rw [parse_timestamp, hfull]

theorem parse_render_plain (y mo d h mi s : Nat)
    (hy1 : 1 ≤ y) (hy2 : y ≤ 9999) (hmo1 : 1 ≤ mo) (hmo2 : mo ≤ 12)
    (hd1 : 1 ≤ d) (hd2 : d ≤ daysInMonth y mo)
    (hh : h ≤ 23) (hmi : mi ≤ 59) (hs : s ≤ 59) :
    parse_timestamp (renderTS y mo d h mi s) = some ⟨y, mo, d, h, mi, s, 0⟩ := by
  have hnone := strptimeFull_true_of_no_dot (dot_not_mem_renderTS y mo d h mi s)
  have hvalid := datetimeValid_fields y mo d h mi s 0
    hy1 hy2 hmo1 hmo2 hd1 hd2 hh hmi hs (by omega)
  have hfull : strptimeFull false (renderTS y mo d h mi s) =
      some ⟨y, mo, d, h, mi, s, 0⟩ := by
    rw [strptimeFull, matchCore_plain_render y mo d h mi s hy2 hmo1 hmo2 hd1
      (le_trans hd2 (daysInMonth_le_31 y mo)) hh hmi hs]
    simp [hvalid]
  rw [parse_timestamp, hnone, hfull]

/-- Claim C8 (amended): a canonically rendered `YYYYMMDD HH:MM:SS`
timestamp with a fractional suffix of one to SIX digits parses (to the
exact microsecond value of the right-padded fraction), and without a
fractional suffix parses through the whole-second fallback; a suffix of
seven or more digits is NOT accepted (see the counterexample), since the
`%f` directive of strptime matches at most six digits. -/
theorem timestamp_parse_fraction_forms (y mo d h mi s : Nat) (ds : List Char)
    (hy1 : 1 ≤ y) (hy2 : y ≤ 9999) (hmo1 : 1 ≤ mo) (hmo2 : mo ≤ 12)
    (hd1 : 1 ≤ d) (hd2 : d ≤ daysInMonth y mo)
    (hh : h ≤ 23) (hmi : mi ≤ 59) (hs : s ≤ 59)
    (h1 : ds ≠ []) (h6 : ds.length ≤ 6) (hdig : ∀ c ∈ ds, c.isDigit = true) :
    parse_timestamp (renderTS y mo d h mi s ++ '.' :: ds) =
      some ⟨y, mo, d, h, mi, s, fracUsec ds⟩ ∧
    parse_timestamp (renderTS y mo d h mi s) = some ⟨y, mo, d, h, mi, s, 0⟩ :=
  ⟨parse_render_frac y mo d h mi s ds hy1 hy2 hmo1 hmo2 hd1 hd2 hh hmi hs h1 h6 hdig,
   parse_render_plain y mo d h mi s hy1 hy2 hmo1 hmo2 hd1 hd2 hh hmi hs⟩

/-- Witness for C8 (amended) at the spec example `20240801 00:00:00.1105`. -/
theorem timestamp_parse_fraction_forms_witness :
    parse_timestamp (renderTS 2024 8 1 0 0 0 ++ '.' :: String.data "1105") =
      some ⟨2024, 8, 1, 0, 0, 0, fracUsec (String.data "1105")⟩ ∧
    parse_timestamp (renderTS 2024 8 1 0 0 0) = some ⟨2024, 8, 1, 0, 0, 0, 0⟩ :=
  timestamp_parse_fraction_forms 2024 8 1 0 0 0 (String.data "1105")
    (by decide) (by decide) (by decide) (by decide) (by decide) (by decide)
    (by decide) (by decide) (by decide) (by decide) (by decide) (by decide)

/-- Counterexample for C8 as stated: a fractional-second suffix of seven
digits (an "arbitrary digit count" per the claim) is rejected by
`parse_timestamp`, because `%f` consumes at most six digits and the
leftover digit is unconverted data for both formats. -/
theorem timestamp_seven_fraction_digits_rejected :
    parse_timestamp (String.data "20240801 00:00:00.1234567") = none := by
  decide

/-- Counterexample for C2 as stated: for input `20240801 00:00:00.1105`
the value reaching the store renders as `2024-08-01 00:00:00.110500`
(microseconds preserved, stored exactly by the DATETIME(6) column), not
the claimed three-digit literal `2024-08-01 00:00:00.110`; the
three-digit literal is exactly what the helper `format_datetime_with_ms`
would produce, but the script never calls it on the insert path. -/
theorem stored_timestamp_not_three_digits :
    (parse_timestamp (String.data "20240801 00:00:00.1105")).map mysql_literal =
      some (String.data "2024-08-01 00:00:00.110500") ∧
    (parse_timestamp (String.data "20240801 00:00:00.1105")).map format_datetime_with_ms =
      some (String.data "2024-08-01 00:00:00.110") ∧
    String.data "2024-08-01 00:00:00.110500" ≠ String.data "2024-08-01 00:00:00.110" := by
  decide

/-- Claim C2 (amended): the timestamp value handed to the store is the
parsed datetime itself, rendered at full microsecond precision: for any
rendered timestamp with a non-zero fractional part, the stored literal
carries the same wall-clock instant with six fractional digits (the
right-padded input fraction), not a three-digit truncation. -/
theorem stored_timestamp_full_microseconds (y mo d h mi s : Nat) (ds : List Char)
    (hy1 : 1 ≤ y) (hy2 : y ≤ 9999) (hmo1 : 1 ≤ mo) (hmo2 : mo ≤ 12)
    (hd1 : 1 ≤ d) (hd2 : d ≤ daysInMonth y mo)
    (hh : h ≤ 23) (hmi : mi ≤ 59) (hs : s ≤ 59)
    (h1 : ds ≠ []) (h6 : ds.length ≤ 6) (hdig : ∀ c ∈ ds, c.isDigit = true)
    (hnz : digitsVal ds ≠ 0) :
    (parse_timestamp (renderTS y mo d h mi s ++ '.' :: ds)).map mysql_literal =
      some (pad4 y ++ '-' :: pad2 mo ++ '-' :: pad2 d ++
        ' ' :: pad2 h ++ ':' :: pad2 mi ++ ':' :: pad2 s ++
        '.' :: pad6 (fracUsec ds)) := by
  rw [parse_render_frac y mo d h mi s ds hy1 hy2 hmo1 hmo2 hd1 hd2 hh hmi hs h1 h6 hdig]
  have husec : fracUsec ds ≠ 0 := by
    rw [fracUsec]
    have hp : 10 ^ (6 - ds.length) ≠ 0 := by positivity
    exact Nat.mul_ne_zero hnz hp
  simp [mysql_literal, strftime_full, husec]

/-- Witness for C2 (amended) at the spec example. -/
theorem stored_timestamp_full_microseconds_witness :
    (parse_timestamp (renderTS 2024 8 1 0 0 0 ++ '.' :: String.data "1105")).map mysql_literal =
      some (pad4 2024 ++ '-' :: pad2 8 ++ '-' :: pad2 1 ++
        ' ' :: pad2 0 ++ ':' :: pad2 0 ++ ':' :: pad2 0 ++
        '.' :: pad6 (fracUsec (String.data "1105"))) :=
  stored_timestamp_full_microseconds 2024 8 1 0 0 0 (String.data "1105")
    (by decide) (by decide) (by decide) (by decide) (by decide) (by decide)
    (by decide) (by decide) (by decide) (by decide) (by decide) (by decide) (by decide)

/-! ## Table name resolution -/

theorem splitOnChar_of_not_mem {c : Char} {l : List Char} (h : c ∉ l) :
    splitOnChar c l = [l] := by
  induction l with
  | nil => rfl
  | cons x xs ih =>
    have hx : ¬ x = c := by
      intro e
      exact h (by simp [e])
    have hxs : c ∉ xs := fun hm => h (by simp [hm])
    rw [splitOnChar, if_neg hx, ih hxs]

theorem splitOnChar_append {c : Char} {l1 l2 : List Char} (h : c ∉ l1) :
    splitOnChar c (l1 ++ c :: l2) = l1 :: splitOnChar c l2 := by
  induction l1 with
  | nil =>
    simp only [List.nil_append]
    rw [splitOnChar, if_pos rfl]
  | cons x xs ih =>
    have hx : ¬ x = c := by
      intro e
      exact h (by simp [e])
    have hxs : c ∉ xs := fun hm => h (by simp [hm])
    simp only [List.cons_append]
    rw [splitOnChar, if_neg hx, ih hxs]

/-- Counterexample for C3 as stated: a filename with four dash-separated
tokens is not rejected; `get_table_name` resolves it from the first three
tokens. -/
theorem four_token_filename_resolved :
    (fname_tokens (String.data "AUDJPY-2024-08-extra.zip")).length = 4 ∧
    get_table_name (String.data "AUDJPY-2024-08-extra.zip") =
      some (String.data "AUDJPY_2024_08") := by
  decide

/-- Claim C3 (amended): the resolver fails (an untyped IndexError — no
typed MalformedFilename error exists in the script) exactly when the
filename stem has fewer than three dash-separated tokens; a name with
three or more tokens, four included, is resolved from the first three
rather than rejected. -/
theorem table_name_failure_characterisation (f : List Char) :
    (get_table_name f = none ↔ (fname_tokens f).length < 3) ∧
    (∀ p0 p1 p2 rest, fname_tokens f = p0 :: p1 :: p2 :: rest →
      get_table_name f = some (p0 ++ '_' :: p1 ++ '_' :: p2)) := by
  constructor
  · rcases h : fname_tokens f with _ | ⟨a, _ | ⟨b, _ | ⟨c, r⟩⟩⟩ <;>
      rw [get_table_name, h] <;> simp
  · intro p0 p1 p2 rest hts
    rw [get_table_name, hts]

/-- Witness for C3 (amended) at a three-token filename. -/
theorem table_name_failure_characterisation_witness :
    get_table_name (String.data "GBPUSD-2024-08.zip") =
      some (String.data "GBPUSD" ++ '_' :: String.data "2024" ++ '_' :: String.data "08") :=
  (table_name_failure_characterisation (String.data "GBPUSD-2024-08.zip")).2
    (String.data "GBPUSD") (String.data "2024") (String.data "08") [] (by decide)

/-- Claim C4: a filename `PAIR-YYYY-MM.ext` with exactly three
dash-separated tokens before the extension resolves to the identifier
`PAIR_YYYY_MM`, with the tokens copied literally (no case or padding
normalization). -/
theorem table_name_resolution (pair y m ext : List Char)
    (hp1 : '-' ∉ pair) (hp2 : '.' ∉ pair) (hp3 : '/' ∉ pair)
    (hy1 : '-' ∉ y) (hy2 : '.' ∉ y) (hy3 : '/' ∉ y)
    (hm1 : '-' ∉ m) (hm2 : '.' ∉ m) (hm3 : '/' ∉ m)
    (he : '/' ∉ ext) :
    get_table_name (pair ++ '-' :: (y ++ '-' :: (m ++ '.' :: ext))) =
      some (pair ++ '_' :: (y ++ '_' :: m)) := by
  have hslash : '/' ∉ pair ++ '-' :: (y ++ '-' :: (m ++ '.' :: ext)) := by
    intro hmem
    simp only [List.mem_append, List.mem_cons] at hmem
    rcases hmem with h | h | h | h | h | h | h
    · exact hp3 h
    · exact absurd h (by decide)
    · exact hy3 h
    · exact absurd h (by decide)
    · exact hm3 h
    · exact absurd h (by decide)
    · exact he h
  have hdotstem : '.' ∉ pair ++ '-' :: (y ++ '-' :: m) := by
    intro hmem
    simp only [List.mem_append, List.mem_cons] at hmem
    rcases hmem with h | h | h | h | h
    · exact hp2 h
    · exact absurd h (by decide)
    · exact hy2 h
    · exact absurd h (by decide)
    · exact hm2 h
  have e1 : pair ++ '-' :: (y ++ '-' :: (m ++ '.' :: ext)) =
      (pair ++ '-' :: (y ++ '-' :: m)) ++ '.' :: ext := by
    simp [List.append_assoc]
  have hbase : fname_tokens (pair ++ '-' :: (y ++ '-' :: (m ++ '.' :: ext))) =
      pair :: y :: [m] := by
    rw [fname_tokens, splitOnChar_of_not_mem hslash]
    simp only [List.getLastD_cons, List.getLastD_nil]
    rw [e1, splitOnChar_append hdotstem]
    simp only [List.headD_cons]
    rw [splitOnChar_append hp1, splitOnChar_append hy1, splitOnChar_of_not_mem hm1]
  rw [get_table_name, hbase]
  simp [List.append_assoc]

/-- Witness for C4 at the spec example filename. -/
theorem table_name_resolution_witness :
    get_table_name (String.data "GBPUSD" ++ '-' ::
        (String.data "2024" ++ '-' :: (String.data "08" ++ '.' :: String.data "zip"))) =
      some (String.data "GBPUSD" ++ '_' :: (String.data "2024" ++ '_' :: String.data "08")) :=
  table_name_resolution (String.data "GBPUSD") (String.data "2024")
    (String.data "08") (String.data "zip")
    (by decide) (by decide) (by decide) (by decide) (by decide) (by decide)
    (by decide) (by decide) (by decide) (by decide)
